import Mathlib

/-!
Shallow embedding of the bloop condition AST (src/bloop/condition.py) and the
change-tracking/diff engine (src/bloop/tracking.py), with theorems checking the
repository's specification claims against it.
-/

namespace Bloop

/-- Attribute values.  The codec/type system is external to this core; values
are opaque to the AST and the diff engine, so a concrete scalar carrier
suffices. -/
abbrev Value := String

/-- One segment of a document path: a string key or an integer index. -/
inductive PathSeg where
  | str (s : String)
  | idx (n : Int)
deriving DecidableEq, Repr

/-- Optional ordered path addressing into a nested attribute (`path=None` by
default in every leaf constructor). -/
abbrev Path := Option (List PathSeg)

/-- External Column handle (schema subsystem).  `uid` models Python object
identity: two Column objects are the same object iff their uids coincide;
`dynamo_name` is the wire name, `model_name` the in-memory field name. -/
structure Column where
  uid : Nat
  dynamo_name : String
  model_name : String
deriving DecidableEq, Repr

/-- Comparator callables passed to `Comparison.__init__`.  The six members of
`comparator_strings` plus arbitrary other callables (`other`). -/
inductive PyOp where
  | eq | ne | lt | gt | le | ge
  | other (name : String)
deriving DecidableEq, Repr

/-- The `Comparison.comparator_strings` dict: the wire text for each of the six
supported operators; `none` for a comparator that is not a key of the dict. -/
def comparator_strings : PyOp → Option String
  | .eq => some "="
  | .ne => some "<>"
  | .lt => some "<"
  | .gt => some ">"
  | .le => some "<="
  | .ge => some ">="
  | .other _ => none

/-- The condition AST: one constructor per class of src/bloop/condition.py.
`empty` is the `Condition` class; each leaf carries its `dumped` flag (class
default `false`; combinators never read theirs, so it is kept on leaves). -/
inductive Cond where
  | empty
  | and_ (conditions : List Cond)
  | or_ (conditions : List Cond)
  | not_ (condition : Cond)
  | comparison (column : Column) (comparator : PyOp) (value : Value) (path : Path) (dumped : Bool)
  | attributeExists (column : Column) (negate : Bool) (path : Path) (dumped : Bool)
  | beginsWith (column : Column) (value : Value) (path : Path) (dumped : Bool)
  | contains (column : Column) (value : Value) (path : Path) (dumped : Bool)
  | between (column : Column) (lower : Value) (upper : Value) (path : Path) (dumped : Bool)
  | inCond (column : Column) (values : List Value) (path : Path) (dumped : Bool)
deriving Repr

/-- Python `a & b`: dispatch on the runtime class of the left operand.
`Condition.__and__` returns the other operand; `And.__and__` appends in place
(modelled as the same And node with the child list extended); every other class
uses `_BaseCondition.__and__`, building a fresh two-child And. -/
def andCombine : Cond → Cond → Cond
  | .empty, other => other
  | .and_ cs, other => .and_ (cs ++ [other])
  | self, other => .and_ [self, other]

/-- Python `a | b`, dispatching likewise on the left operand's class. -/
def orCombine : Cond → Cond → Cond
  | .empty, other => other
  | .or_ cs, other => .or_ (cs ++ [other])
  | self, other => .or_ [self, other]

/-- Python `~c`: `Condition.__invert__` returns self; otherwise wrap in Not. -/
def invert : Cond → Cond
  | .empty => .empty
  | c => .not_ c

mutual

/-- Python `len(c)`: 0 for the empty condition, sum of children for And/Or,
the inner condition's length for Not, 1 for every leaf. -/
def condLen : Cond → Nat
  | .empty => 0
  | .and_ cs => condLenList cs
  | .or_ cs => condLenList cs
  | .not_ c => condLen c
  | .comparison .. => 1
  | .attributeExists .. => 1
  | .beginsWith .. => 1
  | .contains .. => 1
  | .between .. => 1
  | .inCond .. => 1

/-- `sum(map(len, conditions))` over a child list. -/
def condLenList : List Cond → Nat
  | [] => 0
  | c :: cs => condLen c + condLenList cs

end

mutual

/-- Python `==` on conditions, following each class's `__eq__`: the empty
condition equals exactly empty conditions; And/Or require the same combinator
kind, equal child counts and pairwise-equal children; Not compares inners;
leaves require the same class, identical column object (`is`, modelled by
`uid`), and equal remaining attributes.  The `dumped` flag is never compared. -/
def pyEq : Cond → Cond → Bool
  | .empty, .empty => true
  | .and_ cs, .and_ ds => pyEqList cs ds
  | .or_ cs, .or_ ds => pyEqList cs ds
  | .not_ c, .not_ d => pyEq c d
  | .comparison c1 op1 v1 p1 _, .comparison c2 op2 v2 p2 _ =>
      c1.uid == c2.uid && op1 == op2 && v1 == v2 && p1 == p2
  | .attributeExists c1 n1 p1 _, .attributeExists c2 n2 p2 _ =>
      c1.uid == c2.uid && n1 == n2 && p1 == p2
  | .beginsWith c1 v1 p1 _, .beginsWith c2 v2 p2 _ =>
      c1.uid == c2.uid && v1 == v2 && p1 == p2
  | .contains c1 v1 p1 _, .contains c2 v2 p2 _ =>
      c1.uid == c2.uid && v1 == v2 && p1 == p2
  | .between c1 l1 u1 p1 _, .between c2 l2 u2 p2 _ =>
      c1.uid == c2.uid && l1 == l2 && u1 == u2 && p1 == p2
  | .inCond c1 vs1 p1 _, .inCond c2 vs2 p2 _ =>
      c1.uid == c2.uid && vs1 == vs2 && p1 == p2
  | _, _ => false

/-- Child-list comparison of `_MultiCondition.__eq__`: equal lengths and
pairwise-equal elements. -/
def pyEqList : List Cond → List Cond → Bool
  | [], [] => true
  | c :: cs, d :: ds => pyEq c d && pyEqList cs ds
  | _, _ => false

end

/-- `Comparison.__init__`: rejects any comparator that is not a key of
`comparator_strings`, before any render is attempted; otherwise constructs the
leaf with the default `path` handling and `dumped=false`. -/
def Comparison.init (column : Column) (comparator : PyOp) (value : Value)
    (path : Path) : Except String Cond :=
  match comparator_strings comparator with
  | none => .error "Unknown comparator"
  | some _ => .ok (.comparison column comparator value path false)

/-- The renderer contract consumed by `render`: an external compiler object
holding placeholder-allocation state `σ`.  `name_ref(column, path)` and
`value_ref(column, value, dumped, path)` each return a token and the updated
renderer state. -/
structure Renderer (σ : Type) where
  name_ref : σ → Column → Path → String × σ
  value_ref : σ → Column → Value → Bool → Path → String × σ

/-- Python `"{}".format(x)` on a render result: `None` prints as "None". -/
def formatOpt : Option String → String
  | none => "None"
  | some s => s

/-- The `In.render` loop: one `value_ref` call per value, in input order. -/
def valueRefList {σ : Type} (r : Renderer σ) (column : Column) (dumped : Bool)
    (path : Path) : List Value → σ → List String × σ
  | [], s => ([], s)
  | v :: vs, s =>
      let (t, s1) := r.value_ref s column v dumped path
      let (ts, s2) := valueRefList r column dumped path vs s1
      (t :: ts, s2)

/-- `str.join` type check: all items must be strings; a `None` item (an empty
condition that rendered to absent) fails the join. -/
def sequenceStrings : List (Option String) → Option (List String)
  | [] => some []
  | none :: _ => none
  | some s :: rest => (sequenceStrings rest).map (fun ss => s :: ss)

/-- The tail of `_MultiCondition.render` in the general case: join the
children's renderings with the combinator's `uname` and parenthesize. -/
def joinRendered {σ : Type} (uname : String) :
    Except Unit (List (Option String)) × σ → Except Unit (Option String) × σ
  | (.error e, s) => (.error e, s)
  | (.ok os, s) =>
      match sequenceStrings os with
      | some strs =>
          (.ok (some ("(" ++ String.intercalate (" " ++ uname ++ " ") strs ++ ")")), s)
      | none => (.error (), s)

mutual

/-- `render(renderer)` per class.  The empty condition renders to absent
(`none`).  A one-child And/Or renders that child directly; otherwise all
children are rendered in order and joined with the combinator's `uname`
(a child rendering to absent makes the join raise, modelled by `.error ()`).
`Not` formats its inner rendering into `(NOT ...)`.  Leaves obtain a name
reference and value reference(s) from the renderer; a comparison whose
comparator is outside `comparator_strings` (unreachable through
`Comparison.init`) raises on the dict lookup, modelled by `.error ()`. -/
def render {σ : Type} (r : Renderer σ) : Cond → σ → Except Unit (Option String) × σ
  | .empty, s => (.ok none, s)
  | .and_ [c], s => render r c s
  | .and_ cs, s => joinRendered "AND" (renderChildren r cs s)
  | .or_ [c], s => render r c s
  | .or_ cs, s => joinRendered "OR" (renderChildren r cs s)
  | .not_ c, s =>
      match render r c s with
      | (.ok o, s1) => (.ok (some ("(NOT " ++ formatOpt o ++ ")")), s1)
      | (.error e, s1) => (.error e, s1)
  | .comparison col op v p d, s =>
      let (n, s1) := r.name_ref s col p
      let (vr, s2) := r.value_ref s1 col v d p
      match comparator_strings op with
      | some c => (.ok (some ("(" ++ n ++ " " ++ c ++ " " ++ vr ++ ")")), s2)
      | none => (.error (), s2)
  | .attributeExists col negate p _, s =>
      let fn := if negate then "attribute_not_exists" else "attribute_exists"
      let (n, s1) := r.name_ref s col p
      (.ok (some ("(" ++ fn ++ "(" ++ n ++ "))")), s1)
  | .beginsWith col v p d, s =>
      let (n, s1) := r.name_ref s col p
      let (vr, s2) := r.value_ref s1 col v d p
      (.ok (some ("(begins_with(" ++ n ++ ", " ++ vr ++ "))")), s2)
  | .contains col v p d, s =>
      let (n, s1) := r.name_ref s col p
      let (vr, s2) := r.value_ref s1 col v d p
      (.ok (some ("(contains(" ++ n ++ ", " ++ vr ++ "))")), s2)
  | .between col lo hi p d, s =>
      let (n, s1) := r.name_ref s col p
      let (vlo, s2) := r.value_ref s1 col lo d p
      let (vhi, s3) := r.value_ref s2 col hi d p
      (.ok (some ("(" ++ n ++ " BETWEEN " ++ vlo ++ " AND " ++ vhi ++ ")")), s3)
  | .inCond col vs p d, s =>
      let (n, s1) := r.name_ref s col p
      let (ts, s2) := valueRefList r col d p vs s1
      (.ok (some ("(" ++ n ++ " IN (" ++ String.intercalate ", " ts ++ "))")), s2)
termination_by c _ => sizeOf c

/-- Renders each child in order, raising at the first child that raises
(render state advances through every successfully rendered child). -/
def renderChildren {σ : Type} (r : Renderer σ) :
    List Cond → σ → Except Unit (List (Option String)) × σ
  | [], s => (.ok [], s)
  | c :: cs, s =>
      match render r c s with
      | (.error e, s1) => (.error e, s1)
      | (.ok o, s1) =>
          match renderChildren r cs s1 with
          | (.error e, s2) => (.error e, s2)
          | (.ok os, s2) => (.ok (o :: os), s2)
termination_by cs _ => sizeOf cs

end

/-! ### Change tracking (src/bloop/tracking.py) -/

/-- A Python dict with string keys, in insertion order. -/
abbrev Dict := List (String × Value)

/-- `d.get(k)` / `d.get(k, None)`: first entry with the key, if any. -/
def dictGet (d : Dict) (k : String) : Option Value :=
  (d.find? (fun p => p.1 == k)).map (fun p => p.2)

/-- `d[k] = v`: overwrite in place if the key exists, else append. -/
def dictSet (d : Dict) (k : String) (v : Value) : Dict :=
  if d.any (fun p => p.1 == k) then
    d.map (fun p => if p.1 == k then (k, v) else p)
  else d ++ [(k, v)]

/-- `d.pop(k, None)`'s effect on the dict: drop the key's entry if present. -/
def dictDel (d : Dict) (k : String) : Dict :=
  d.filter (fun p => p.1 != k)

/-- External model metadata (schema subsystem): the ordered column list and
the identified hash/range key columns. -/
structure Meta where
  columns : List Column
  hash_key : Option Column
  range_key : Option Column

/-- A tracked object: its model metadata, its live in-memory attributes
(`model_name → raw value`; absent means the attribute is not set), and its
tracking dict (`dynamo_name → dumped value` of the last load). -/
structure Obj where
  meta : Meta
  attrs : Dict
  tracking : Dict

/-- External engine: the codec system's per-column `encode` used by `_dump`. -/
structure Engine where
  dump_value : Column → Value → Value

/-- `column is hash_key or column is range_key`, identity via `uid`. -/
def isKey (m : Meta) (c : Column) : Bool :=
  m.hash_key.any (fun h => h.uid == c.uid) || m.range_key.any (fun r => r.uid == c.uid)

/-- Modelled from the spec: `engine._dump` (bloop/engine.py, not under src/)
returns a dict of `{dynamo_name: dumped value}` for the object; attributes not
set on the object are not included (src docstring of `_get_current`). -/
def get_current (engine : Engine) (obj : Obj) : Dict :=
  obj.meta.columns.filterMap (fun c =>
    (dictGet obj.attrs c.model_name).map (fun v => (c.dynamo_name, engine.dump_value c v)))

/-- `_get_tracking`: the `{dynamo_name: value}` dict restricted to the model's
columns; attributes not set at last load are not returned. -/
def get_tracking (obj : Obj) : Dict :=
  obj.meta.columns.filterMap (fun c =>
    (dictGet obj.tracking c.dynamo_name).map (fun v => (c.dynamo_name, v)))

/-- The `_DIFF` enum. -/
inductive DIFF where
  | SET | DEL | NOOP
deriving DecidableEq, Repr

/-- `_diff_value(current, loaded)`, where `none` is the MISSING sentinel.
`bloop.util.ordered` (bloop/util.py, not under src/) canonically reorders
nested containers before comparison; on the scalar wire values modelled here it
is the identity, so the comparison is plain equality. -/
def diff_value (current loaded : Option Value) : DIFF :=
  if current == loaded then .NOOP
  else if current == none then .DEL
  else .SET

/-- Payload of one key of the `diff_obj` result dict. -/
inductive DiffVal where
  | setList (entries : List (Column × Option Value))
  | delList (columns : List Column)
deriving DecidableEq, Repr

/-- The result dict of `diff_obj`: insertion-ordered string-keyed entries. -/
abbrev Plan := List (String × DiffVal)

/-- One loop step of `diff_obj`: skip hash/range key columns; otherwise diff
the dumped current value against the tracked value and append a SET entry
(column with its raw in-memory value, `getattr(obj, column.model_name)`) or a
DELETE entry. -/
def diffStep (obj : Obj) (current tracking : Dict)
    (acc : List (Column × Option Value) × List Column) (c : Column) :
    List (Column × Option Value) × List Column :=
  if isKey obj.meta c then acc
  else
    let current_value := dictGet current c.dynamo_name
    let tracking_value := dictGet tracking c.dynamo_name
    match diff_value current_value tracking_value with
    | .SET => (acc.1 ++ [(c, dictGet obj.attrs c.model_name)], acc.2)
    | .DEL => (acc.1, acc.2 ++ [c])
    | .NOOP => acc

/-- `diff_obj(obj, engine)`: builds `{"SET": [...], "DELETE": [...]}` over the
model's columns and pops either key whose instruction list stayed empty. -/
def diff_obj (obj : Obj) (engine : Engine) : Plan :=
  let current := get_current engine obj
  let tracking := get_tracking obj
  let lists := obj.meta.columns.foldl (diffStep obj current tracking) ([], [])
  (if lists.1.isEmpty then [] else [("SET", DiffVal.setList lists.1)]) ++
    (if lists.2.isEmpty then [] else [("DELETE", DiffVal.delList lists.2)])

/-- The "SET" instruction list of a plan (empty when the key is absent). -/
def planSet : Plan → List (Column × Option Value)
  | [] => []
  | ("SET", .setList l) :: _ => l
  | _ :: rest => planSet rest

/-- The "DELETE" instruction list of a plan (empty when the key is absent). -/
def planDel : Plan → List Column
  | [] => []
  | ("DELETE", .delList l) :: _ => l
  | _ :: rest => planDel rest

/-- `update(obj, attrs, expected)`'s effect on the tracking dict: for each
expected column, set the attr's value if present in `attrs`, else delete it. -/
def update (tracking : Dict) (attrs : Dict) (expected : List Column) : Dict :=
  expected.foldl
    (fun t c =>
      match dictGet attrs c.dynamo_name with
      | none => dictDel t c.dynamo_name
      | some v => dictSet t c.dynamo_name v)
    tracking

/-- `clear(obj)`: `update(obj, {}, obj.Meta.columns)`. -/
def clear (tracking : Dict) (meta : Meta) : Dict :=
  update tracking [] meta.columns

/-- The tracked object after `clear(obj)`. -/
def clearObj (obj : Obj) : Obj :=
  { obj with tracking := clear obj.tracking obj.meta }

/-- Modelled from the spec: `Column.is_` (bloop/column.py, not under src/)
builds the snapshot leaf — `column == value` for a present last-known value,
`column IS None` (attribute-not-exists) for an absent one; `dumped` starts at
the class default `false` and is set by the caller. -/
def Column.is_ (c : Column) (v : Option Value) : Cond :=
  match v with
  | some w => .comparison c .eq w none false
  | none => .attributeExists c true none false

/-- `condition.dumped = True`: flags a leaf's values as already wire-encoded. -/
def setDumped : Cond → Cond
  | .comparison c op v p _ => .comparison c op v p true
  | .attributeExists c n p _ => .attributeExists c n p true
  | .beginsWith c v p _ => .beginsWith c v p true
  | .contains c v p _ => .contains c v p true
  | .between c l u p _ => .between c l u p true
  | .inCond c vs p _ => .inCond c vs p true
  | c => c

/-- Insert a column into a list sorted by `dynamo_name`, before any equal key
(stable, matching Python's `sorted`). -/
def sortInsert (c : Column) : List Column → List Column
  | [] => [c]
  | d :: ds =>
      if c.dynamo_name ≤ d.dynamo_name then c :: d :: ds
      else d :: sortInsert c ds

/-- `sorted(columns, key=lambda col: col.dynamo_name)`. -/
def sortByName : List Column → List Column
  | [] => []
  | c :: cs => sortInsert c (sortByName cs)

/-- `atomic_condition(obj)`: starting from the empty condition, `&=` one leaf
per model column (sorted by wire name), each leaf `column.is_(value)` for the
tracked value (`None` when absent) with `dumped` set to true. -/
def atomic_condition (obj : Obj) : Cond :=
  let tracking := get_tracking obj
  (sortByName obj.meta.columns).foldl
    (fun atomic c =>
      andCombine atomic (setDumped (Column.is_ c (dictGet tracking c.dynamo_name))))
    Cond.empty

/-- The child list of a condition viewed as a conjunction: the children of an
And node, nothing for the empty condition, the condition itself otherwise. -/
def conjuncts : Cond → List Cond
  | .empty => []
  | .and_ cs => cs
  | c => [c]

/-- A condition that is neither the empty condition nor an And node (leaves,
Not, Or): its `__and__` is `_BaseCondition.__and__`. -/
def notEmptyAnd : Cond → Bool
  | .empty => false
  | .and_ _ => false
  | _ => true

/-- A leaf condition: one of the six predicate classes. -/
def isLeaf : Cond → Bool
  | .comparison .. => true
  | .attributeExists .. => true
  | .beginsWith .. => true
  | .contains .. => true
  | .between .. => true
  | .inCond .. => true
  | _ => false

/-- Comparison of columns by wire name, the sort key of `atomic_condition`. -/
def ColLE (a b : Column) : Prop :=
  a.dynamo_name ≤ b.dynamo_name

/-- Shared shape of `get_current` and `get_tracking`: one entry per column
whose looked-up value is present, keyed by the column's wire name. -/
def colEntries (val : Column → Option Value) (out : Column → Value → Value)
    (cols : List Column) : Dict :=
  cols.filterMap (fun c => (val c).map (fun v => (c.dynamo_name, out c v)))

/-- The SET instruction `diff_obj`'s loop emits for one column, if any. -/
def setInstr (obj : Obj) (current tracking : Dict) (c : Column) :
    Option (Column × Option Value) :=
  if isKey obj.meta c then none
  else
    match diff_value (dictGet current c.dynamo_name) (dictGet tracking c.dynamo_name) with
    | .SET => some (c, dictGet obj.attrs c.model_name)
    | _ => none

/-- The DELETE instruction `diff_obj`'s loop emits for one column, if any. -/
def delInstr (obj : Obj) (current tracking : Dict) (c : Column) : Option Column :=
  if isKey obj.meta c then none
  else
    match diff_value (dictGet current c.dynamo_name) (dictGet tracking c.dynamo_name) with
    | .DEL => some c
    | _ => none

/-- Renderer state for the counting renderer: how many name and value
placeholders have been allocated so far. -/
structure CountState where
  names : Nat
  values : Nat
deriving DecidableEq, Repr

/-- A minimal renderer satisfying the renderer contract: every `name_ref`
returns a fresh "#n<i>" token and every `value_ref` a fresh ":v<i>" token. -/
def countingRenderer : Renderer CountState where
  name_ref := fun s _ _ => ("#n" ++ toString s.names, ⟨s.names + 1, s.values⟩)
  value_ref := fun s _ _ _ _ => (":v" ++ toString s.values, ⟨s.names, s.values + 1⟩)

/-- Fixture: a hash-key column `id` for a two-column example model. -/
def wColId : Column := ⟨1, "id", "id"⟩

/-- Fixture: a plain data column `email` for the example model. -/
def wColEmail : Column := ⟨2, "email", "email"⟩

/-- Fixture: the example model metadata — hash key `id`, field `email`. -/
def wMeta : Meta := ⟨[wColId, wColEmail], some wColId, none⟩

/-- Fixture: an engine whose codec is the identity on the scalar carrier. -/
def wEngine : Engine := ⟨fun _ v => v⟩

/-- Fixture: an object with `email` set in memory and nothing tracked. -/
def wObjMarked : Obj := ⟨wMeta, [("email", "a@b.com")], []⟩

/-- Fixture: an object synced with `email` present, then `email` unset in
memory. -/
def wObjUnset : Obj := ⟨wMeta, [("id", "u1")], [("id", "u1"), ("email", "a@b.com")]⟩

/-- Fixture: an object whose live state matches its tracked state. -/
def wObjClean : Obj := ⟨wMeta, [("id", "u1")], [("id", "u1")]⟩

/-! ### Helper lemmas -/

theorem condLenList_eq_sum (cs : List Cond) :
    condLenList cs = (cs.map condLen).sum := by
  induction cs with
  | nil => rfl
  | cons c cs ih => simp [condLenList, ih]

theorem andCombine_base (a b : Cond) (h : notEmptyAnd a = true) :
    andCombine a b = .and_ [a, b] := by
  cases a <;> simp_all [notEmptyAnd, andCombine]

theorem conjuncts_of_notEmptyAnd (a : Cond) (h : notEmptyAnd a = true) :
    conjuncts a = [a] := by
  cases a <;> simp_all [notEmptyAnd, conjuncts]

theorem foldl_andCombine_and (ls : List Cond) (cs : List Cond) :
    ls.foldl andCombine (.and_ cs) = .and_ (cs ++ ls) := by
  induction ls generalizing cs with
  | nil => simp
  | cons l ls ih =>
      simp only [List.foldl_cons, andCombine, ih, List.append_assoc,
        List.singleton_append]

theorem conjuncts_foldl_andCombine (ls : List Cond)
    (h : ∀ l ∈ ls, notEmptyAnd l = true) :
    conjuncts (ls.foldl andCombine .empty) = ls := by
  match ls with
  | [] => rfl
  | [a] =>
      have ha := h a (by simp)
      simp only [List.foldl_cons, List.foldl_nil, andCombine]
      exact conjuncts_of_notEmptyAnd a ha
  | a :: b :: rest =>
      have ha := h a (by simp)
      have h1 : (a :: b :: rest).foldl andCombine .empty
          = rest.foldl andCombine (andCombine a b) := rfl
      rw [h1, andCombine_base a b ha, foldl_andCombine_and]
      rfl

theorem isLeaf_notEmptyAnd (c : Cond) (h : isLeaf c = true) :
    notEmptyAnd c = true := by
  cases c <;> simp_all [isLeaf, notEmptyAnd]

theorem condLen_isLeaf (c : Cond) (h : isLeaf c = true) : condLen c = 1 := by
  cases c <;> simp_all [isLeaf, condLen]

theorem sortInsert_perm (c : Column) (l : List Column) :
    (sortInsert c l).Perm (c :: l) := by
  induction l with
  | nil => exact List.Perm.refl _
  | cons d ds ih =>
      by_cases h : c.dynamo_name ≤ d.dynamo_name
      · simp [sortInsert, h]
      · simp only [sortInsert, if_neg h]
        exact (ih.cons d).trans (List.Perm.swap c d ds)

theorem sortByName_perm (l : List Column) : (sortByName l).Perm l := by
  induction l with
  | nil => exact List.Perm.refl _
  | cons c cs ih => exact (sortInsert_perm c (sortByName cs)).trans (ih.cons c)

theorem sortInsert_sorted (c : Column) (l : List Column)
    (h : l.Pairwise ColLE) : (sortInsert c l).Pairwise ColLE := by
  induction l with
  | nil => simp [sortInsert]
  | cons d ds ih =>
      obtain ⟨hd, hds⟩ := List.pairwise_cons.mp h
      by_cases hle : c.dynamo_name ≤ d.dynamo_name
      · simp only [sortInsert, if_pos hle]
        refine List.pairwise_cons.mpr ⟨?_, h⟩
        intro x hx
        rcases List.mem_cons.mp hx with rfl | hx2
        · exact hle
        · exact le_trans hle (hd x hx2)
      · simp only [sortInsert, if_neg hle]
        refine List.pairwise_cons.mpr ⟨?_, ih hds⟩
        intro x hx
        rcases List.mem_cons.mp ((sortInsert_perm c ds).mem_iff.mp hx) with rfl | hx2
        · exact le_of_not_le hle
        · exact hd x hx2

theorem sortByName_sorted (l : List Column) : (sortByName l).Pairwise ColLE := by
  induction l with
  | nil => exact List.Pairwise.nil
  | cons c cs ih => exact sortInsert_sorted c (sortByName cs) ih

theorem dictGet_dictDel_self (t : Dict) (k : String) :
    dictGet (dictDel t k) k = none := by
  induction t with
  | nil => rfl
  | cons p ps ih =>
      by_cases h : p.1 = k
      · simp [dictDel, dictGet, List.filter, h] at ih ⊢
      · simp only [dictDel, List.filter] at ih ⊢
        rw [show (p.1 != k) = true by simp [h]]
        simp only [dictGet, List.find?, show (p.1 == k) = false by simp [h]] at ih ⊢
        exact ih

theorem dictGet_dictDel_of_none (t : Dict) (k k' : String)
    (h : dictGet t k = none) : dictGet (dictDel t k') k = none := by
  induction t with
  | nil => rfl
  | cons p ps ih =>
      simp only [dictGet, List.find?] at h
      by_cases hpk : p.1 = k
      · simp [hpk] at h
      · rw [show (p.1 == k) = false by simp [hpk]] at h
        have ih2 := ih (by simpa [dictGet] using h)
        simp only [dictDel, List.filter] at ih2 ⊢
        by_cases hpk' : p.1 = k'
        · rw [show (p.1 != k') = false by simp [hpk']]
          exact ih2
        · rw [show (p.1 != k') = true by simp [hpk']]
          simpa [dictGet, List.find?, show (p.1 == k) = false by simp [hpk]] using ih2

theorem update_nil_preserves_none (cols : List Column) :
    ∀ (t : Dict) (k : String), dictGet t k = none →
      dictGet (update t [] cols) k = none := by
  induction cols with
  | nil => intro t k h; exact h
  | cons c cs ih =>
      intro t k h
      have hstep : update t [] (c :: cs) = update (dictDel t c.dynamo_name) [] cs := rfl
      rw [hstep]
      exact ih _ k (dictGet_dictDel_of_none t k c.dynamo_name h)

theorem update_nil_get_none (cols : List Column) :
    ∀ (t : Dict) (c : Column), c ∈ cols →
      dictGet (update t [] cols) c.dynamo_name = none := by
  induction cols with
  | nil => intro t c hc; cases hc
  | cons d ds ih =>
      intro t c hc
      have hstep : update t [] (d :: ds) = update (dictDel t d.dynamo_name) [] ds := rfl
      rw [hstep]
      rcases List.mem_cons.mp hc with rfl | hc2
      · exact update_nil_preserves_none ds _ _ (dictGet_dictDel_self t c.dynamo_name)
      · exact ih _ c hc2

theorem get_current_eq_colEntries (e : Engine) (obj : Obj) :
    get_current e obj
      = colEntries (fun c => dictGet obj.attrs c.model_name)
          (fun c v => e.dump_value c v) obj.meta.columns := rfl

theorem get_tracking_eq_colEntries (obj : Obj) :
    get_tracking obj
      = colEntries (fun c => dictGet obj.tracking c.dynamo_name)
          (fun _ v => v) obj.meta.columns := rfl

theorem dictGet_colEntries_none (val : Column → Option Value)
    (out : Column → Value → Value) (cols : List Column) (name : String)
    (h : ∀ c ∈ cols, c.dynamo_name = name → val c = none) :
    dictGet (colEntries val out cols) name = none := by
  induction cols with
  | nil => rfl
  | cons d ds ih =>
      have hds := fun c hc => h c (List.mem_cons_of_mem d hc)
      cases hv : val d with
      | none =>
          simpa [colEntries, hv] using ih hds
      | some v =>
          by_cases hn : d.dynamo_name = name
          · exact absurd hv (by rw [h d (List.mem_cons_self d ds) hn]; simp)
          · have := ih hds
            simpa [colEntries, hv, dictGet, List.find?,
              show (d.dynamo_name == name) = false by simp [hn]] using this

theorem dictGet_colEntries_nodup (val : Column → Option Value)
    (out : Column → Value → Value) :
    ∀ (cols : List Column) (c : Column),
      (cols.map Column.dynamo_name).Nodup → c ∈ cols →
      dictGet (colEntries val out cols) c.dynamo_name = (val c).map (out c) := by
  intro cols
  induction cols with
  | nil => intro c _ hc; cases hc
  | cons d ds ih =>
      intro c hnd hc
      rw [List.map_cons] at hnd
      obtain ⟨hdnotin, hnds⟩ := List.nodup_cons.mp hnd
      rcases List.mem_cons.mp hc with rfl | hc2
      · cases hv : val c with
        | some v => simp [colEntries, hv, dictGet, List.find?]
        | none =>
            have h0 : colEntries val out (c :: ds) = colEntries val out ds := by
              simp [colEntries, hv]
            rw [h0]
            have h1 : dictGet (colEntries val out ds) c.dynamo_name = none :=
              dictGet_colEntries_none val out ds c.dynamo_name
                (fun c' hc' hn' =>
                  absurd (hn' ▸ List.mem_map_of_mem Column.dynamo_name hc')
                    hdnotin)
            simp [h1]
      · have hneq : d.dynamo_name ≠ c.dynamo_name := by
          intro he
          exact hdnotin (he.symm ▸ List.mem_map_of_mem Column.dynamo_name hc2)
        cases hv : val d with
        | none => simpa [colEntries, hv] using ih c hnds hc2
        | some v =>
            have := ih c hnds hc2
            simpa [colEntries, hv, dictGet, List.find?,
              show (d.dynamo_name == c.dynamo_name) = false by simp [hneq]] using this

/-! ### Claim theorems -/

theorem diff_foldl (obj : Obj) (current tracking : Dict) :
    ∀ (cols : List Column) (a : List (Column × Option Value)) (b : List Column),
      cols.foldl (diffStep obj current tracking) (a, b)
        = (a ++ cols.filterMap (setInstr obj current tracking),
            b ++ cols.filterMap (delInstr obj current tracking)) := by
  intro cols
  induction cols with
  | nil => intro a b; simp
  | cons c cs ih =>
      intro a b
      rw [List.foldl_cons]
      by_cases hk : isKey obj.meta c
      · have hstep : diffStep obj current tracking (a, b) c = (a, b) := by
          simp [diffStep, hk]
        rw [hstep, ih a b]
        simp [setInstr, delInstr, hk]
      · cases hdv : diff_value (dictGet current c.dynamo_name)
            (dictGet tracking c.dynamo_name) with
        | SET =>
            have hstep : diffStep obj current tracking (a, b) c
                = (a ++ [(c, dictGet obj.attrs c.model_name)], b) := by
              simp [diffStep, hk, hdv]
            rw [hstep, ih]
            simp [setInstr, delInstr, hk, hdv]
        | DEL =>
            have hstep : diffStep obj current tracking (a, b) c = (a, b ++ [c]) := by
              simp [diffStep, hk, hdv]
            rw [hstep, ih]
            simp [setInstr, delInstr, hk, hdv]
        | NOOP =>
            have hstep : diffStep obj current tracking (a, b) c = (a, b) := by
              simp [diffStep, hk, hdv]
            rw [hstep, ih a b]
            simp [setInstr, delInstr, hk, hdv]

theorem diff_obj_eq (obj : Obj) (e : Engine) :
    diff_obj obj e
      = (if (obj.meta.columns.filterMap
            (setInstr obj (get_current e obj) (get_tracking obj))).isEmpty
          then []
          else [("SET", DiffVal.setList (obj.meta.columns.filterMap
            (setInstr obj (get_current e obj) (get_tracking obj))))]) ++
        (if (obj.meta.columns.filterMap
            (delInstr obj (get_current e obj) (get_tracking obj))).isEmpty
          then []
          else [("DELETE", DiffVal.delList (obj.meta.columns.filterMap
            (delInstr obj (get_current e obj) (get_tracking obj))))]) := by
  rw [diff_obj]
  rw [diff_foldl obj (get_current e obj) (get_tracking obj) obj.meta.columns [] []]
  simp

theorem planSet_diff_obj (obj : Obj) (e : Engine) :
    planSet (diff_obj obj e)
      = obj.meta.columns.filterMap (setInstr obj (get_current e obj) (get_tracking obj)) := by
  rw [diff_obj_eq]
  rcases hs : (obj.meta.columns.filterMap
      (setInstr obj (get_current e obj) (get_tracking obj))).isEmpty with _ | _
  · rcases hd : (obj.meta.columns.filterMap
        (delInstr obj (get_current e obj) (get_tracking obj))).isEmpty with _ | _
    · simp [hs, hd, planSet]
    · simp [hs, hd, planSet]
  · rcases hd : (obj.meta.columns.filterMap
        (delInstr obj (get_current e obj) (get_tracking obj))).isEmpty with _ | _
    · simp [hs, hd, planSet, List.isEmpty_iff.mp hs]
    · simp [hs, hd, planSet, List.isEmpty_iff.mp hs]

theorem planDel_diff_obj (obj : Obj) (e : Engine) :
    planDel (diff_obj obj e)
      = obj.meta.columns.filterMap (delInstr obj (get_current e obj) (get_tracking obj)) := by
  rw [diff_obj_eq]
  rcases hs : (obj.meta.columns.filterMap
      (setInstr obj (get_current e obj) (get_tracking obj))).isEmpty with _ | _
  · rcases hd : (obj.meta.columns.filterMap
        (delInstr obj (get_current e obj) (get_tracking obj))).isEmpty with _ | _
    · simp [hs, hd, planDel]
    · simp [hs, hd, planDel, List.isEmpty_iff.mp hd]
  · rcases hd : (obj.meta.columns.filterMap
        (delInstr obj (get_current e obj) (get_tracking obj))).isEmpty with _ | _
    · simp [hs, hd, planDel]
    · simp [hs, hd, planDel, List.isEmpty_iff.mp hd]

/-- C1: for every tracked object, `atomic_condition` is a conjunction holding
exactly one leaf per model column — `column == last-known-value` (with the
tracked value) for columns present in tracking, `column IS None`
(attribute-not-exists) otherwise — every leaf flagged `dumped=true`, with the
leaves a permutation of the model's columns ordered by wire name; and after
`clear(object)` every leaf is `column IS None`. -/
theorem c1_atomic_condition_snapshot (obj : Obj) :
    conjuncts (atomic_condition obj)
      = (sortByName obj.meta.columns).map (fun c =>
          match dictGet (get_tracking obj) c.dynamo_name with
          | some v => Cond.comparison c .eq v none true
          | none => Cond.attributeExists c true none true)
    ∧ (sortByName obj.meta.columns).Perm obj.meta.columns
    ∧ (sortByName obj.meta.columns).Pairwise
        (fun a b => a.dynamo_name ≤ b.dynamo_name)
    ∧ conjuncts (atomic_condition (clearObj obj))
      = (sortByName obj.meta.columns).map (fun c =>
          Cond.attributeExists c true none true) := by
  have hleafeq : ∀ (t : Dict) (c : Column),
      setDumped (Column.is_ c (dictGet t c.dynamo_name))
        = match dictGet t c.dynamo_name with
          | some v => Cond.comparison c .eq v none true
          | none => Cond.attributeExists c true none true := by
    intro t c
    cases dictGet t c.dynamo_name <;> rfl
  have hfold : ∀ (o : Obj),
      atomic_condition o
        = ((sortByName o.meta.columns).map (fun c =>
            setDumped (Column.is_ c (dictGet (get_tracking o) c.dynamo_name)))).foldl
            andCombine .empty := by
    intro o
    rw [atomic_condition, List.foldl_map]
  have hconj : ∀ (o : Obj),
      conjuncts (atomic_condition o)
        = (sortByName o.meta.columns).map (fun c =>
            setDumped (Column.is_ c (dictGet (get_tracking o) c.dynamo_name))) := by
    intro o
    rw [hfold o]
    refine conjuncts_foldl_andCombine _ (fun l hl => ?_)
    obtain ⟨c, _, rfl⟩ := List.mem_map.mp hl
    cases dictGet (get_tracking o) c.dynamo_name <;> rfl
  refine ⟨?_, sortByName_perm _, sortByName_sorted _, ?_⟩
  · rw [hconj obj]
    exact List.map_congr_left (fun c _ => hleafeq _ c)
  · rw [hconj (clearObj obj)]
    refine List.map_congr_left (fun c hcmem => ?_)
    have hcin : c ∈ obj.meta.columns := (sortByName_perm _).subset hcmem
    have hnone : dictGet (clearObj obj).tracking c.dynamo_name = none :=
      update_nil_get_none obj.meta.columns obj.tracking c hcin
    have hnone2 : dictGet (get_tracking (clearObj obj)) c.dynamo_name = none := by
      rw [get_tracking_eq_colEntries]
      refine dictGet_colEntries_none _ _ _ _ (fun c' hc' hn' => ?_)
      rw [hn']
      exact update_nil_get_none obj.meta.columns obj.tracking c hcin
    rw [hnone2]
    rfl

/-- C2: the update plan of `diff_obj` never contains the model's hash-key or
range-key column; for every non-key column whose dumped current value differs
from its tracked value, a live (non-empty) in-memory value puts the column in
the SET list paired with its raw in-memory value, and an empty/absent live
value puts the column in the DELETE (removal) list. -/
theorem c2_diff_obj_update_plan (obj : Obj) (e : Engine)
    (hnodup : (obj.meta.columns.map Column.dynamo_name).Nodup) :
    (∀ en ∈ planSet (diff_obj obj e), isKey obj.meta en.1 = false)
    ∧ (∀ c ∈ planDel (diff_obj obj e), isKey obj.meta c = false)
    ∧ (∀ c ∈ obj.meta.columns, isKey obj.meta c = false →
        diff_value (dictGet (get_current e obj) c.dynamo_name)
            (dictGet (get_tracking obj) c.dynamo_name) ≠ DIFF.NOOP →
        (∀ v, dictGet obj.attrs c.model_name = some v →
          (c, some v) ∈ planSet (diff_obj obj e))
        ∧ (dictGet obj.attrs c.model_name = none →
          c ∈ planDel (diff_obj obj e))) := by
  have hcur : ∀ c ∈ obj.meta.columns,
      dictGet (get_current e obj) c.dynamo_name
        = (dictGet obj.attrs c.model_name).map (fun v => e.dump_value c v) := by
    intro c hc
    rw [get_current_eq_colEntries]
    exact dictGet_colEntries_nodup _ _ obj.meta.columns c hnodup hc
  refine ⟨?_, ?_, ?_⟩
  · rw [planSet_diff_obj]
    intro en hen
    obtain ⟨c', hc', hinstr⟩ := List.mem_filterMap.mp hen
    by_cases hk : isKey obj.meta c'
    · simp [setInstr, hk] at hinstr
    · cases hdv : diff_value (dictGet (get_current e obj) c'.dynamo_name)
          (dictGet (get_tracking obj) c'.dynamo_name) with
      | SET =>
          simp [setInstr, hk, hdv] at hinstr
          subst hinstr
          simpa using hk
      | DEL => simp [setInstr, hk, hdv] at hinstr
      | NOOP => simp [setInstr, hk, hdv] at hinstr
  · rw [planDel_diff_obj]
    intro c hen
    obtain ⟨c', hc', hinstr⟩ := List.mem_filterMap.mp hen
    by_cases hk : isKey obj.meta c'
    · simp [delInstr, hk] at hinstr
    · cases hdv : diff_value (dictGet (get_current e obj) c'.dynamo_name)
          (dictGet (get_tracking obj) c'.dynamo_name) with
      | DEL =>
          simp [delInstr, hk, hdv] at hinstr
          subst hinstr
          simpa using hk
      | SET => simp [delInstr, hk, hdv] at hinstr
      | NOOP => simp [delInstr, hk, hdv] at hinstr
  · intro c hc hk hch
    constructor
    · intro v hv
      have hcv : dictGet (get_current e obj) c.dynamo_name
          = some (e.dump_value c v) := by rw [hcur c hc, hv]; rfl
      have hdv : diff_value (dictGet (get_current e obj) c.dynamo_name)
          (dictGet (get_tracking obj) c.dynamo_name) = .SET := by
        by_cases hbeq : (dictGet (get_current e obj) c.dynamo_name
            == dictGet (get_tracking obj) c.dynamo_name) = true
        · exact absurd (by simp [diff_value, hbeq]) hch
        · rw [diff_value, if_neg hbeq, hcv]
          simp
      rw [planSet_diff_obj]
      exact List.mem_filterMap.mpr ⟨c, hc, by simp [setInstr, hk, hdv, hv]⟩
    · intro hv
      have hcv : dictGet (get_current e obj) c.dynamo_name = none := by
        rw [hcur c hc, hv]; rfl
      have hdv : diff_value (dictGet (get_current e obj) c.dynamo_name)
          (dictGet (get_tracking obj) c.dynamo_name) = .DEL := by
        by_cases hbeq : (dictGet (get_current e obj) c.dynamo_name
            == dictGet (get_tracking obj) c.dynamo_name) = true
        · exact absurd (by simp [diff_value, hbeq]) hch
        · rw [diff_value, if_neg hbeq, hcv]
          simp
      rw [planDel_diff_obj]
      exact List.mem_filterMap.mpr ⟨c, hc, by simp [delInstr, hk, hdv]⟩

/-- C2 witness: in the example model, setting `email = "a@b.com"` on a fresh
object yields exactly `SET = [(email, "a@b.com")]`, and unsetting `email`
after a sync yields exactly the removal list `[email]`; `id` appears in
neither. -/
theorem c2_diff_obj_update_plan_witness :
    ((wColEmail, some "a@b.com") ∈ planSet (diff_obj wObjMarked wEngine))
    ∧ diff_obj wObjMarked wEngine
      = [("SET", DiffVal.setList [(wColEmail, some "a@b.com")])]
    ∧ (wColEmail ∈ planDel (diff_obj wObjUnset wEngine))
    ∧ diff_obj wObjUnset wEngine = [("DELETE", DiffVal.delList [wColEmail])] :=
  ⟨((c2_diff_obj_update_plan wObjMarked wEngine (by decide)).2.2 wColEmail
      (by decide) (by decide) (by decide)).1 "a@b.com" (by decide),
    by decide,
    ((c2_diff_obj_update_plan wObjUnset wEngine (by decide)).2.2 wColEmail
      (by decide) (by decide) (by decide)).2 (by decide),
    by decide⟩

/-- C10: every key of the `diff_obj` result dict is "SET" or "DELETE" (never
"REMOVE"), a key present in the dict carries a non-empty instruction list, and
an object with no effective changes yields the empty dict. -/
theorem c10_diff_obj_dict_shape (obj : Obj) (e : Engine) :
    (∀ p ∈ diff_obj obj e, p.1 = "SET" ∨ p.1 = "DELETE")
    ∧ (∀ p ∈ diff_obj obj e, p.1 ≠ "REMOVE")
    ∧ (∀ p ∈ diff_obj obj e,
        match p.2 with
        | .setList l => l ≠ []
        | .delList l => l ≠ [])
    ∧ (planSet (diff_obj obj e) = [] → planDel (diff_obj obj e) = [] →
        diff_obj obj e = []) := by
  have hkey : ∀ p ∈ diff_obj obj e, p.1 = "SET" ∨ p.1 = "DELETE" := by
    rw [diff_obj_eq]
    intro p hp
    rcases List.mem_append.mp hp with h | h
    · left
      rcases hs : (obj.meta.columns.filterMap
          (setInstr obj (get_current e obj) (get_tracking obj))).isEmpty with _ | _
      · rw [hs] at h
        simp at h
        subst h
        rfl
      · rw [hs] at h
        simp at h
    · right
      rcases hd : (obj.meta.columns.filterMap
          (delInstr obj (get_current e obj) (get_tracking obj))).isEmpty with _ | _
      · rw [hd] at h
        simp at h
        subst h
        rfl
      · rw [hd] at h
        simp at h
  refine ⟨hkey, ?_, ?_, ?_⟩
  · intro p hp
    rcases hkey p hp with h | h <;> rw [h] <;> decide
  · rw [diff_obj_eq]
    intro p hp
    rcases List.mem_append.mp hp with h | h
    · rcases hs : (obj.meta.columns.filterMap
          (setInstr obj (get_current e obj) (get_tracking obj))).isEmpty with _ | _
      · rw [hs] at h
        simp at h
        subst h
        intro hcon
        rw [hcon] at hs
        simp at hs
      · rw [hs] at h
        simp at h
    · rcases hd : (obj.meta.columns.filterMap
          (delInstr obj (get_current e obj) (get_tracking obj))).isEmpty with _ | _
      · rw [hd] at h
        simp at h
        subst h
        intro hcon
        rw [hcon] at hd
        simp at hd
      · rw [hd] at h
        simp at h
  · intro h1 h2
    rw [planSet_diff_obj] at h1
    rw [planDel_diff_obj] at h2
    rw [diff_obj_eq, h1, h2]
    simp

/-- C10 witness: the clean example object (live state equal to tracked state)
produces the empty dict. -/
theorem c10_diff_obj_dict_shape_witness :
    diff_obj wObjClean wEngine = [] :=
  (c10_diff_obj_dict_shape wObjClean wEngine).2.2.2 (by decide) (by decide)

/-- C3 counterexample: for the attribute-exists leaf `c` below,
`c & Empty` is `And(c, Empty)`, which is not equal to `c` — neither
structurally nor under the code's `==` — refuting `c & Empty = c`. -/
theorem c3_and_empty_counterexample :
    pyEq
      (andCombine (Cond.attributeExists ⟨0, "n", "n"⟩ false none false) Cond.empty)
      (Cond.attributeExists ⟨0, "n", "n"⟩ false none false) = false
    ∧ andCombine (Cond.attributeExists ⟨0, "n", "n"⟩ false none false) Cond.empty
      ≠ Cond.attributeExists ⟨0, "n", "n"⟩ false none false := by
  constructor
  · rfl
  · intro h
    exact Cond.noConfusion h

/-- C3 (amended): rendering the Empty condition returns absent, `Empty & c = c`
and `NOT Empty = Empty` hold for every condition and renderer; but `c & Empty`
appends Empty as an operand rather than returning `c` — it equals `c` exactly
when `c` is itself Empty — while still preserving the condition's length. -/
theorem c3_empty_condition_algebra :
    (∀ (σ : Type) (r : Renderer σ) (s : σ), render r Cond.empty s = (.ok none, s))
    ∧ (∀ c : Cond, andCombine Cond.empty c = c)
    ∧ invert Cond.empty = Cond.empty
    ∧ (∀ c : Cond, (andCombine c Cond.empty = c ↔ c = Cond.empty))
    ∧ (∀ c : Cond, condLen (andCombine c Cond.empty) = condLen c) := by
  refine ⟨fun σ r s => by simp [render], fun c => rfl, rfl, fun c => ?_, fun c => ?_⟩
  · constructor
    · intro h
      cases c with
      | empty => rfl
      | and_ cs =>
          simp only [andCombine, Cond.and_.injEq] at h
          exact absurd (congrArg List.length h) (by simp)
      | or_ cs => exact Cond.noConfusion h
      | not_ c => exact Cond.noConfusion h
      | comparison c op v p d => exact Cond.noConfusion h
      | attributeExists c n p d => exact Cond.noConfusion h
      | beginsWith c v p d => exact Cond.noConfusion h
      | contains c v p d => exact Cond.noConfusion h
      | between c l u p d => exact Cond.noConfusion h
      | inCond c vs p d => exact Cond.noConfusion h
    · intro h; subst h; rfl
  · cases c <;> simp [andCombine, condLen, condLenList_eq_sum]

/-- C3 witness: the amended theorem applied to a concrete leaf and the empty
condition. -/
theorem c3_empty_condition_algebra_witness :
    andCombine Cond.empty (Cond.attributeExists ⟨3, "w", "w"⟩ false none false)
      = Cond.attributeExists ⟨3, "w", "w"⟩ false none false
    ∧ invert Cond.empty = Cond.empty
    ∧ condLen (andCombine (Cond.attributeExists ⟨3, "w", "w"⟩ false none false)
        Cond.empty)
      = condLen (Cond.attributeExists ⟨3, "w", "w"⟩ false none false) :=
  ⟨c3_empty_condition_algebra.2.1 _, c3_empty_condition_algebra.2.2.1,
    c3_empty_condition_algebra.2.2.2.2 _⟩

/-- C4: two sequential `&` combinations starting from a leaf build one flat
three-child And node (never nested pairs), and combining an And with any
condition (resp. Or with Or via `|`) extends the same accumulator node's child
list in place. -/
theorem c4_flat_and_accumulation :
    (∀ a b c : Cond, isLeaf a = true →
      andCombine (andCombine a b) c = .and_ [a, b, c])
    ∧ (∀ (cs : List Cond) (x : Cond), andCombine (.and_ cs) x = .and_ (cs ++ [x]))
    ∧ (∀ (cs : List Cond) (x : Cond), orCombine (.or_ cs) x = .or_ (cs ++ [x]))
    ∧ (∀ (ls : List Cond), (∀ l ∈ ls, isLeaf l = true) →
      conjuncts (ls.foldl andCombine .empty) = ls) := by
  refine ⟨fun a b c ha => ?_, fun cs x => rfl, fun cs x => rfl, fun ls h => ?_⟩
  · rw [andCombine_base a b (isLeaf_notEmptyAnd a ha)]
    rfl
  · exact conjuncts_foldl_andCombine ls (fun l hl => isLeaf_notEmptyAnd l (h l hl))

/-- C4 witness: concrete three-leaf build, flat And of the three leaves. -/
theorem c4_flat_and_accumulation_witness :
    andCombine
      (andCombine (Cond.attributeExists ⟨0, "a", "a"⟩ false none false)
        (Cond.attributeExists ⟨1, "b", "b"⟩ false none false))
      (Cond.attributeExists ⟨2, "c", "c"⟩ false none false)
    = .and_ [Cond.attributeExists ⟨0, "a", "a"⟩ false none false,
        Cond.attributeExists ⟨1, "b", "b"⟩ false none false,
        Cond.attributeExists ⟨2, "c", "c"⟩ false none false] :=
  c4_flat_and_accumulation.1
    (Cond.attributeExists ⟨0, "a", "a"⟩ false none false)
    (Cond.attributeExists ⟨1, "b", "b"⟩ false none false)
    (Cond.attributeExists ⟨2, "c", "c"⟩ false none false) rfl

/-- C5 counterexample: the claim gives every Not node length 1, but
`len(Not(Empty))` is 0 in the code (`Not.__len__` returns the inner length). -/
theorem c5_not_length_counterexample :
    condLen (Cond.not_ Cond.empty) ≠ 1 := by
  intro h
  simp [condLen] at h

/-- C5 (amended): length of Empty is 0; length of an And/Or node is the sum of
its children's lengths; length of a Not node equals the length of its inner
condition (not always 1); length of every leaf is 1. -/
theorem c5_condition_length :
    condLen Cond.empty = 0
    ∧ (∀ cs : List Cond, condLen (.and_ cs) = (cs.map condLen).sum)
    ∧ (∀ cs : List Cond, condLen (.or_ cs) = (cs.map condLen).sum)
    ∧ (∀ c : Cond, condLen (.not_ c) = condLen c)
    ∧ (∀ c : Cond, isLeaf c = true → condLen c = 1) :=
  ⟨rfl, fun cs => condLenList_eq_sum cs, fun cs => condLenList_eq_sum cs,
    fun _ => rfl, fun c h => condLen_isLeaf c h⟩

/-- C5 witness: concrete evaluation, including the three-leaf And example. -/
theorem c5_condition_length_witness :
    condLen (Cond.and_ [Cond.attributeExists ⟨0, "a", "a"⟩ false none false,
        Cond.attributeExists ⟨1, "b", "b"⟩ false none false,
        Cond.attributeExists ⟨2, "c", "c"⟩ false none false]) = 3
    ∧ condLen (Cond.attributeExists ⟨0, "a", "a"⟩ false none false) = 1 :=
  ⟨by rfl, c5_condition_length.2.2.2.2 _ rfl⟩

/-- C7: constructing a Comparison succeeds exactly for the six relational
operators of `comparator_strings`; any other comparator fails construction
with the unknown-comparator error, no condition node (and hence no render)
being produced. -/
theorem c7_comparison_operator_validation :
    ∀ (col : Column) (op : PyOp) (v : Value) (p : Path),
      ((op = .eq ∨ op = .ne ∨ op = .lt ∨ op = .gt ∨ op = .le ∨ op = .ge) →
        Comparison.init col op v p = .ok (.comparison col op v p false))
      ∧ ((∀ name, op = .other name →
        Comparison.init col op v p = .error "Unknown comparator"))
      ∧ ((∃ c, Comparison.init col op v p = .ok c) ↔
        (op = .eq ∨ op = .ne ∨ op = .lt ∨ op = .gt ∨ op = .le ∨ op = .ge)) := by
  intro col op v p
  refine ⟨fun h => ?_, fun name h => ?_, ?_, ?_⟩
  · rcases h with h | h | h | h | h | h <;> subst h <;> rfl
  · subst h; rfl
  · rintro ⟨c, hc⟩
    cases op <;> simp_all [Comparison.init, comparator_strings]
  · intro h
    rcases h with h | h | h | h | h | h <;> subst h <;> exact ⟨_, rfl⟩

/-- C7 witness: `=` constructs, an arbitrary other callable is rejected. -/
theorem c7_comparison_operator_validation_witness :
    Comparison.init ⟨0, "n", "n"⟩ .eq "5" none
      = .ok (.comparison ⟨0, "n", "n"⟩ .eq "5" none false)
    ∧ Comparison.init ⟨0, "n", "n"⟩ (.other "add") "5" none
      = .error "Unknown comparator" :=
  ⟨(c7_comparison_operator_validation ⟨0, "n", "n"⟩ .eq "5" none).1 (Or.inl rfl),
    (c7_comparison_operator_validation ⟨0, "n", "n"⟩ (.other "add") "5" none).2.1
      "add" rfl⟩

/-- C8: two Comparison leaves are `==`-equal iff they hold the same column
object (identity), the same operator, equal values and equal paths (the dumped
flag never participates); leaves over distinct column objects are unequal even
when the columns carry the same wire name. -/
theorem c8_comparison_equality :
    (∀ (c1 c2 : Column) (op1 op2 : PyOp) (v1 v2 : Value) (p1 p2 : Path)
      (d1 d2 : Bool),
      pyEq (.comparison c1 op1 v1 p1 d1) (.comparison c2 op2 v2 p2 d2) = true ↔
        (c1.uid = c2.uid ∧ op1 = op2 ∧ v1 = v2 ∧ p1 = p2))
    ∧ (∀ (c1 c2 : Column) (op : PyOp) (v : Value) (p : Path),
      c1.uid ≠ c2.uid → c1.dynamo_name = c2.dynamo_name →
      pyEq (.comparison c1 op v p false) (.comparison c2 op v p false) = false) := by
  constructor
  · intro c1 c2 op1 op2 v1 v2 p1 p2 d1 d2
    simp [pyEq, and_assoc]
  · intro c1 c2 op v p hid _
    simp [pyEq, hid]

theorem sequenceStrings_map_some (strs : List String) :
    sequenceStrings (strs.map Option.some) = some strs := by
  induction strs with
  | nil => rfl
  | cons s strs ih => simp [sequenceStrings, ih]

/-- C6: a one-child And/Or renders exactly as its child, with no added
parentheses; an And/Or with two or more children whose renderings are the
strings `strs` renders as those strings joined by literal " AND "/" OR "
inside one pair of parentheses; Not always renders its inner rendering inside
"(NOT ...)". -/
theorem c6_combinator_rendering :
    (∀ (σ : Type) (r : Renderer σ) (c : Cond) (s : σ),
      render r (.and_ [c]) s = render r c s ∧ render r (.or_ [c]) s = render r c s)
    ∧ (∀ (σ : Type) (r : Renderer σ) (cs : List Cond) (s s1 : σ)
        (strs : List String),
      2 ≤ cs.length →
      renderChildren r cs s = (.ok (strs.map Option.some), s1) →
      render r (.and_ cs) s
        = (.ok (some ("(" ++ String.intercalate " AND " strs ++ ")")), s1)
      ∧ render r (.or_ cs) s
        = (.ok (some ("(" ++ String.intercalate " OR " strs ++ ")")), s1))
    ∧ (∀ (σ : Type) (r : Renderer σ) (c : Cond) (s s1 : σ) (str : String),
      render r c s = (.ok (some str), s1) →
      render r (.not_ c) s = (.ok (some ("(NOT " ++ str ++ ")")), s1)) := by
  refine ⟨fun σ r c s => ⟨by simp [render], by simp [render]⟩,
    fun σ r cs s s1 strs hlen hch => ?_, fun σ r c s s1 str h => ?_⟩
  · match cs, hlen with
    | c1 :: c2 :: rest, _ =>
        constructor <;>
          simp [render, joinRendered, hch, sequenceStrings_map_some]
  · simp [render, h, formatOpt]

/-- C6 witness: concrete renders with a counting renderer defined below would
work as well; here a trivial renderer suffices. -/
theorem c6_combinator_rendering_witness :
    render ⟨fun s _ _ => ("#n", s), fun s _ _ _ _ => (":v", s)⟩
      (Cond.and_ [Cond.attributeExists ⟨0, "a", "a"⟩ false none false]) ()
      = render ⟨fun s _ _ => ("#n", s), fun s _ _ _ _ => (":v", s)⟩
        (Cond.attributeExists ⟨0, "a", "a"⟩ false none false) ()
    ∧ render ⟨fun s _ _ => ("#n", s), fun s _ _ _ _ => (":v", s)⟩
        (Cond.and_ [Cond.attributeExists ⟨0, "a", "a"⟩ false none false,
          Cond.attributeExists ⟨1, "b", "b"⟩ true none false]) ()
      = (.ok (some ("(" ++ String.intercalate " AND "
          ["(attribute_exists(#n))", "(attribute_not_exists(#n))"] ++ ")")), ())
    ∧ render ⟨fun s _ _ => ("#n", s), fun s _ _ _ _ => (":v", s)⟩
        (Cond.not_ (Cond.attributeExists ⟨0, "a", "a"⟩ false none false)) ()
      = (.ok (some ("(NOT " ++ "(attribute_exists(#n))" ++ ")")), ()) :=
  ⟨(c6_combinator_rendering.1 Unit _ _ ()).1,
    ((c6_combinator_rendering.2.1 Unit _ _ () ()
      ["(attribute_exists(#n))", "(attribute_not_exists(#n))"]
      (by decide) (by simp [renderChildren, render])).1),
    c6_combinator_rendering.2.2 Unit _ _ () () _ (by simp [render])⟩

theorem valueRefList_counting (col : Column) (d : Bool) (p : Path) :
    ∀ (vs : List Value) (s : CountState),
      valueRefList countingRenderer col d p vs s
        = ((List.range vs.length).map (fun i => ":v" ++ toString (s.values + i)),
            ⟨s.names, s.values + vs.length⟩) := by
  intro vs
  induction vs with
  | nil => intro s; rfl
  | cons v vs ih =>
      intro s
      have step : valueRefList countingRenderer col d p (v :: vs) s
          = ((":v" ++ toString s.values) ::
              (valueRefList countingRenderer col d p vs ⟨s.names, s.values + 1⟩).1,
            (valueRefList countingRenderer col d p vs ⟨s.names, s.values + 1⟩).2) := rfl
      rw [step, ih]
      rw [Prod.mk.injEq]
      constructor
      · rw [List.length_cons, List.range_succ_eq_map, List.map_cons, List.map_map,
          List.cons.injEq]
        constructor
        · simp
        · refine List.map_congr_left (fun i _ => ?_)
          simp only [Function.comp_apply]
          have harith : s.values + 1 + i = s.values + (i + 1) := by omega
          rw [harith]
      · simp only [List.length_cons]
        congr 1
        omega

/-- C9: Between with equal lower and upper bounds still obtains two
independent value references (the value counter advances by two and the two
tokens are consecutive); In with an empty value list renders the name
reference followed by "IN ()" without failing; and In over any value list
allocates one value reference per value, in input order. -/
theorem c9_between_in_edge_rendering :
    (∀ (col : Column) (v : Value) (p : Path) (d : Bool) (s : CountState),
      render countingRenderer (.between col v v p d) s
        = (.ok (some ("(" ++ ("#n" ++ toString s.names) ++ " BETWEEN "
            ++ (":v" ++ toString s.values) ++ " AND "
            ++ (":v" ++ toString (s.values + 1)) ++ ")")),
            ⟨s.names + 1, s.values + 2⟩))
    ∧ (∀ (col : Column) (p : Path) (d : Bool) (s : CountState),
      render countingRenderer (.inCond col [] p d) s
        = (.ok (some ("(" ++ ("#n" ++ toString s.names) ++ " IN ())")),
            ⟨s.names + 1, s.values⟩))
    ∧ (∀ (col : Column) (vs : List Value) (p : Path) (d : Bool) (s : CountState),
      render countingRenderer (.inCond col vs p d) s
        = (.ok (some ("(" ++ ("#n" ++ toString s.names) ++ " IN ("
            ++ String.intercalate ", "
              ((List.range vs.length).map (fun i => ":v" ++ toString (s.values + i)))
            ++ "))")),
            ⟨s.names + 1, s.values + vs.length⟩)) := by
  refine ⟨fun col v p d s => ?_, fun col p d s => ?_, fun col vs p d s => ?_⟩
  · simp [render, countingRenderer]
  · have hint : ", ".intercalate ([] : List String) = "" := rfl
    simp [render, countingRenderer, valueRefList, String.append_assoc, hint]
  · have hv := valueRefList_counting col d p vs ⟨s.names + 1, s.values⟩
    simp only [countingRenderer] at hv
    simp only [render, countingRenderer]
    rw [hv]

/-- C8 witness: columns with identical wire names but distinct identity give
unequal leaves; identical leaves over the same column object are equal. -/
theorem c8_comparison_equality_witness :
    pyEq (.comparison ⟨0, "email", "email"⟩ .eq "x" none false)
      (.comparison ⟨1, "email", "email"⟩ .eq "x" none false) = false
    ∧ pyEq (.comparison ⟨0, "email", "email"⟩ .eq "x" none false)
      (.comparison ⟨0, "email", "email"⟩ .eq "x" none true) = true :=
  ⟨c8_comparison_equality.2 ⟨0, "email", "email"⟩ ⟨1, "email", "email"⟩ .eq "x"
      none (by decide) rfl,
    (c8_comparison_equality.1 ⟨0, "email", "email"⟩ ⟨0, "email", "email"⟩ .eq .eq
      "x" "x" none none false true).mpr ⟨rfl, rfl, rfl, rfl⟩⟩

end Bloop
